import Mathlib

/-!
Shallow embedding of the lrclibup LRC tooling: the normalizer module
(normalizeLRC, extractPlainLyrics, normalizeTimestamp, sortLRCLines,
normalizeAndSortLRC), the validator (parseTimestampToMs, validateLRC) and
the page-level submission gate (validateBeforeSubmit).

Strings are modelled as lists of characters.  JavaScript primitives used by
the source (String.prototype.trim, split on a newline, lastIndexOf,
substring, padStart, parseInt on digit strings, Math.round of n/10 for a
nonnegative integer n) are embedded explicitly.  Regex scans are embedded as
explicit greedy matchers following the exact patterns of the source.
-/

namespace Lrclibup

abbrev Str := List Char

/-- JavaScript whitespace, as recognised by String.prototype.trim:
tab, line feed, vertical tab, form feed, carriage return, space, and the
Unicode space separators together with NBSP, BOM and the line separators. -/
def isJsWs (c : Char) : Bool :=
  c == ' ' || c == '\t' || c == '\n' || c == '\r' || c == '\u000B' || c == '\u000C' ||
  c == ' ' || c == ' ' ||
  (decide (0x2000 ≤ c.toNat) && decide (c.toNat ≤ 0x200A)) ||
  c == ' ' || c == ' ' || c == ' ' || c == ' ' ||
  c == '　' || c == '﻿'

/-- Embedding of String.prototype.trim. -/
def jsTrim (s : Str) : Str :=
  ((s.dropWhile isJsWs).reverse.dropWhile isJsWs).reverse

/-- Embedding of content.split of a newline: splits on every newline
character, keeping empty segments; the result is never empty. -/
def splitNl : Str → List Str
  | [] => [[]]
  | c :: rest =>
    if c = '\n' then [] :: splitNl rest
    else
      match splitNl rest with
      | [] => [[c]]
      | l :: ls => (c :: l) :: ls

/-- Embedding of Array.prototype.join with a newline separator. -/
def joinNl : List Str → Str
  | [] => []
  | [l] => l
  | l :: l2 :: ls => l ++ '\n' :: joinNl (l2 :: ls)

/-- Decimal rendering of a nonnegative integer, as Number.prototype.toString. -/
def natToStr (n : Nat) : Str := (Nat.repr n).data

/-- Embedding of String.prototype.padStart with pad "0" and target width 2. -/
def padStart2 (s : Str) : Str :=
  if 2 ≤ s.length then s else List.replicate (2 - s.length) '0' ++ s

/-- Value of a digit character. -/
def digVal (c : Char) : Nat := c.toNat - 48

/-- Embedding of parseInt on a string of decimal digits. -/
def digitsToNat (s : Str) : Nat := s.foldl (fun a c => a * 10 + digVal c) 0

/-- Boolean test: the first list is an initial segment of the second. -/
def isPre : Str → Str → Bool
  | [], _ => true
  | _ :: _, [] => false
  | c :: cs, d :: ds => c == d && isPre cs ds

/-- Search downward from position k for the rightmost initial-segment
occurrence of pat in s. -/
def lastIdxAux (pat s : Str) : Nat → Option Nat
  | 0 => if isPre pat s then some 0 else none
  | k + 1 => if isPre pat (s.drop (k + 1)) then some (k + 1) else lastIdxAux pat s k

/-- Embedding of String.prototype.lastIndexOf: the largest index at which
pat occurs in s, and -1 when it does not occur. -/
def lastIndexOfInt (s pat : Str) : Int :=
  match lastIdxAux pat s s.length with
  | some i => (i : Int)
  | none => -1

/-- ASCII lower-casing, the case folding relevant to the metadata tags. -/
def asciiLower (c : Char) : Char :=
  if 'A' ≤ c ∧ c ≤ 'Z' then Char.ofNat (c.toNat + 32) else c

/-- Case-insensitive initial-segment test against an already-lowercase pattern. -/
def ciPre (pat s : Str) : Bool := isPre pat (s.map asciiLower)

/-- Embedding of the metadata test of the source: a bracket, one of the five
tags ti, ar, al, length, offset case-insensitively, and a colon, anchored at
the start of the line. -/
def isMetadata (s : Str) : Bool :=
  match s with
  | '[' :: rest =>
    ciPre "ti:".data rest || ciPre "ar:".data rest || ciPre "al:".data rest ||
    ciPre "length:".data rest || ciPre "offset:".data rest
  | _ => false

/-- A bracket timestamp token as captured by the source pattern: two minute
digits, two second digits, and a fractional part of two or three digits. -/
structure TsTok where
  minutes : Str
  seconds : Str
  frac : Str
deriving DecidableEq

/-- The textual form of a token, bracket to bracket. -/
def tokText (t : TsTok) : Str :=
  '[' :: (t.minutes ++ ':' :: (t.seconds ++ '.' :: (t.frac ++ [']'])))

/-- Well-formedness guaranteed by the matcher: field widths and digits. -/
def tokWF (t : TsTok) : Prop :=
  t.minutes.length = 2 ∧ t.seconds.length = 2 ∧
  (t.frac.length = 2 ∨ t.frac.length = 3) ∧
  (∀ c ∈ t.minutes ++ t.seconds ++ t.frac, c.isDigit = true)

/-- Greedy match of the timestamp pattern at the start of s, following the
source pattern: bracket, two digits, colon, two digits, dot, two or three
digits (three preferred, as the quantifier is greedy), closing bracket.
Returns the token and the remainder of the string. -/
def matchTsAt (s : Str) : Option (TsTok × Str) :=
  match s with
  | '[' :: m1 :: m2 :: ':' :: s1 :: s2 :: '.' :: d1 :: d2 :: rest =>
    if m1.isDigit && m2.isDigit && s1.isDigit && s2.isDigit && d1.isDigit && d2.isDigit then
      match rest with
      | d3 :: ']' :: r2 =>
        if d3.isDigit then some (⟨[m1, m2], [s1, s2], [d1, d2, d3]⟩, r2)
        else if d3 = ']' then some (⟨[m1, m2], [s1, s2], [d1, d2]⟩, ']' :: r2)
        else none
      | ']' :: r2 => some (⟨[m1, m2], [s1, s2], [d1, d2]⟩, r2)
      | _ => none
    else none
  | _ => none

def scanGoF : Nat → Nat → Str → List (Nat × TsTok)
  | 0, _, _ => []
  | fuel + 1, i, s =>
    match matchTsAt s with
    | some (t, r) => (i, t) :: scanGoF fuel (i + (tokText t).length) r
    | none =>
      match s with
      | [] => []
      | _ :: rest => scanGoF fuel (i + 1) rest

/-- All matches of the timestamp pattern in a line, with start positions. -/
def scanTsPos (line : Str) : List (Nat × TsTok) := scanGoF line.length 0 line

/-- All matches of the timestamp pattern in a line, as full token texts;
this is what the source keeps from the exec loop and from matchAll. -/
def scanTs (line : Str) : List Str := (scanTsPos line).map (fun pt => tokText pt.2)

/-- The regions of the reported matches are pairwise disjoint and listed in
increasing position order: each match ends at or before the next begins. -/
def regionsOrdered : List (Nat × TsTok) → Prop
  | [] => True
  | [_] => True
  | a :: b :: rest => a.1 + (tokText a.2).length ≤ b.1 ∧ regionsOrdered (b :: rest)

structure NormalizationResult where
  normalized : Str
  plainLyrics : Str
  changes : Nat
  expandedLines : Nat
deriving DecidableEq

/-- Line terminators, which the dot of a regex does not match. -/
def isLineTerm (c : Char) : Bool :=
  c == '\n' || c == '\r' || c == ' ' || c == ' '

/-- Embedding of normalizeTimestamp: re-parses the token text with the
timestamp pattern (first match anywhere in the string) and re-emits it with
a two-digit fractional part: a three-digit part becomes Math.round(n/10),
rendered in decimal and left-padded with zeros to width two; a two-digit
part is kept (padStart is the identity on it).  When the pattern does not
match, the input is returned unchanged. -/
def normalizeTimestamp (timestamp : Str) : Str :=
  match (scanTsPos timestamp).head? with
  | none => timestamp
  | some (_, t) =>
    let ms : Str :=
      if t.frac.length = 3 then padStart2 (natToStr ((digitsToNat t.frac + 5) / 10))
      else padStart2 t.frac
    '[' :: (t.minutes ++ ':' :: (t.seconds ++ '.' :: (ms ++ [']'])))

/-- Per-line step of normalizeLRC: the lines emitted for one raw input line,
together with the contribution of that line to the changes counter and to
the expandedLines counter.  Blank and metadata lines pass through trimmed;
lines with at most one timestamp match pass through trimmed; a line with
two or more matches is expanded into one line per token, each carrying the
text that follows the rightmost occurrence of the text of the last token. -/
def normLine (rawLine : Str) : List Str × Nat × Nat :=
  let line := jsTrim rawLine
  if line.isEmpty || isMetadata line then ([line], 0, 0)
  else
    let timestamps := scanTs line
    if timestamps.length ≤ 1 then ([line], 0, 0)
    else
      let lastTimestamp := timestamps.getLastD []
      let lastTimestampIndex := lastIndexOfInt line lastTimestamp
      let lyricsText := line.drop (lastTimestampIndex + (lastTimestamp.length : Int)).toNat
      (timestamps.map (fun ts => normalizeTimestamp ts ++ lyricsText), 1, timestamps.length)

/-- Per-line step of extractPlainLyrics: the contribution of one line.
Blank and metadata lines contribute nothing; a line whose trimmed form
matches the anchored single-timestamp-then-rest pattern contributes the
trimmed rest when it is nonempty; any other line contributes nothing. -/
def plainLine (line : Str) : Option Str :=
  let trimmed := jsTrim line
  if trimmed.isEmpty then none
  else if isMetadata trimmed then none
  else
    match matchTsAt trimmed with
    | some (_, rest) =>
      if rest.any isLineTerm then none
      else
        let lyrics := jsTrim rest
        if lyrics.isEmpty then none else some lyrics
    | none => none

/-- Embedding of extractPlainLyrics. -/
def extractPlainLyrics (syncedLyrics : Str) : Str :=
  joinNl ((splitNl syncedLyrics).filterMap plainLine)

/-- Embedding of normalizeLRC. -/
def normalizeLRC (content : Str) : NormalizationResult :=
  let results := (splitNl content).map normLine
  let normalized := joinNl (results.map (fun r => r.1)).join
  { normalized := normalized
    plainLyrics := extractPlainLyrics normalized
    changes := (results.map (fun r => r.2.1)).sum
    expandedLines := (results.map (fun r => r.2.2)).sum }

/-- The sort key of sortLRCLines: minutes, seconds and the fractional part
converted with parseInt and combined as minutes*60000 + seconds*1000 +
frac*10, with no adjustment for a three-digit fractional part. -/
def sortTimestampKey (t : TsTok) : Int :=
  (digitsToNat t.minutes : Int) * 60000 + (digitsToNat t.seconds : Int) * 1000 +
    (digitsToNat t.frac : Int) * 10

/-- Accumulator of the partition pass of sortLRCLines. -/
structure SortAcc where
  metadataLines : List Str
  timedLines : List (Int × Str)
  otherLines : List Str

/-- Partition step of sortLRCLines: metadata lines keep arrival order; a
line whose trimmed form starts with a timestamp match is keyed by
sortTimestampKey; remaining nonempty lines keep arrival order; blank lines
are dropped. -/
def sortStep (acc : SortAcc) (line : Str) : SortAcc :=
  let trimmed := jsTrim line
  if isMetadata trimmed then { acc with metadataLines := acc.metadataLines ++ [trimmed] }
  else
    match matchTsAt trimmed with
    | some (t, _) =>
      { acc with timedLines := acc.timedLines ++ [(sortTimestampKey t, trimmed)] }
    | none =>
      if trimmed.isEmpty then acc
      else { acc with otherLines := acc.otherLines ++ [trimmed] }

/-- Stable insertion of a keyed line after every entry with a key at most
its own; folding it over the arrival order realises the stable sort by
numeric comparator used by the source. -/
def insertTimed (x : Int × Str) : List (Int × Str) → List (Int × Str)
  | [] => [x]
  | y :: ys => if y.1 ≤ x.1 then y :: insertTimed x ys else x :: y :: ys

/-- Stable sort of the timed lines by key. -/
def sortTimed (l : List (Int × Str)) : List (Int × Str) :=
  l.foldl (fun acc x => insertTimed x acc) []

/-- Embedding of sortLRCLines. -/
def sortLRCLines (content : Str) : Str :=
  let acc := (splitNl content).foldl sortStep ⟨[], [], []⟩
  joinNl (acc.metadataLines ++ (sortTimed acc.timedLines).map (fun x => x.2) ++ acc.otherLines)

/-- Embedding of normalizeAndSortLRC. -/
def normalizeAndSortLRC (content : Str) : NormalizationResult :=
  let normalizeResult := normalizeLRC content
  let sorted := sortLRCLines normalizeResult.normalized
  { normalizeResult with
    normalized := sorted
    plainLyrics := extractPlainLyrics sorted }

/-- Embedding of parseTimestampToMs of the validator: first match of the
timestamp pattern anywhere in the string; a three-digit fractional part is
rounded to hundredths with Math.round(n/10); the result is
minutes*60000 + seconds*1000 + hundredths*10. -/
def parseTimestampToMs (timestamp : Str) : Option Int :=
  match (scanTsPos timestamp).head? with
  | none => none
  | some (_, t) =>
    let ms : Int :=
      if t.frac.length = 3 then (((digitsToNat t.frac + 5) / 10 : Nat) : Int)
      else ((digitsToNat t.frac : Nat) : Int)
    some ((digitsToNat t.minutes : Int) * 60000 + (digitsToNat t.seconds : Int) * 1000 + ms * 10)

/-- Tail of the ELRC word-timestamp pattern after the minute digits: colon,
two digits, dot, two or three digits (greedy), closing angle bracket. -/
def elrcTail (s : Str) : Option (Str × Str) :=
  match s with
  | ':' :: s1 :: s2 :: '.' :: d1 :: d2 :: rest =>
    if s1.isDigit && s2.isDigit && d1.isDigit && d2.isDigit then
      match rest with
      | d3 :: '>' :: r2 =>
        if d3.isDigit then some ([':', s1, s2, '.', d1, d2, d3, '>'], r2)
        else if d3 = '>' then some ([':', s1, s2, '.', d1, d2, '>'], '>' :: r2)
        else none
      | '>' :: r2 => some ([':', s1, s2, '.', d1, d2, '>'], r2)
      | _ => none
    else none
  | _ => none

/-- Greedy match of the ELRC word-timestamp pattern at the start of s:
an angle bracket, one or two minute digits (two preferred), then the tail. -/
def matchElrcAt (s : Str) : Option (Str × Str) :=
  match s with
  | '<' :: a :: rest =>
    if a.isDigit then
      match rest with
      | b :: rest2 =>
        if b.isDigit then
          match elrcTail rest2 with
          | some (m, r) => some ('<' :: a :: b :: m, r)
          | none =>
            match elrcTail rest with
            | some (m, r) => some ('<' :: a :: m, r)
            | none => none
        else
          match elrcTail rest with
          | some (m, r) => some ('<' :: a :: m, r)
          | none => none
      | [] => none
    else none
  | _ => none

/-- Fuel-metered global scan for ELRC word timestamps; every step consumes
at least one character, so fuel equal to the string length suffices. -/
def scanElrcF : Nat → Str → List Str
  | 0, _ => []
  | fuel + 1, s =>
    match matchElrcAt s with
    | some (m, r) => m :: scanElrcF fuel r
    | none =>
      match s with
      | [] => []
      | _ :: rest => scanElrcF fuel rest

/-- All matches of the ELRC word-timestamp pattern in a line. -/
def scanElrc (line : Str) : List Str := scanElrcF line.length line

/-- Test of the anchored whole-line single-timestamp pattern: a timestamp
match at the start, and a rest that the dot of the pattern can span, that
is, a rest free of line terminators. -/
def singleTimestampShape (line : Str) : Bool :=
  match matchTsAt line with
  | some (_, rest) => !(rest.any isLineTerm)
  | none => false

inductive Severity where
  | warning
  | error
deriving DecidableEq

inductive IssueType where
  | multiTimestamp
  | invalidFormat
  | invalidTimestamp
  | outOfOrder
  | negativeTimestamp
  | duplicateTimestamp
  | excessiveGap
  | timestampOverlap
  | noTimestamps
  | elrcWordTiming
deriving DecidableEq

/-- A validation issue.  The optional fields timestamps and suggestion of
the source are constant per issue type and are referenced by no theorem of
this development, so they are not carried here. -/
structure LRCValidationIssue where
  line : Nat
  type : IssueType
  severity : Severity
  message : Str
  raw : Str
deriving DecidableEq

structure TimedLine where
  timestamp : Int
  line : Nat
  raw : Str
deriving DecidableEq

/-- Mutable state of the per-line pass of validateLRC. -/
structure LineState where
  issues : List LRCValidationIssue
  multiTimestampCount : Nat
  elrcCount : Nat
  timedLines : List TimedLine
  seenTimestamps : List (Int × Nat)

/-- Lookup in the seen-timestamps map, keyed on the millisecond value. -/
def seenLookup (m : List (Int × Nat)) (k : Int) : Option Nat :=
  match m.find? (fun e => e.1 == k) with
  | some e => some e.2
  | none => none

def elrcMsg (n : Nat) : Str :=
  "Contains ".data ++ natToStr n ++ " ELRC word timestamp".data ++
  (if 1 < n then "s".data else []) ++ " (not supported by LRCLIB)".data

def multiMsg (n : Nat) : Str :=
  "Contains ".data ++ natToStr n ++ " timestamps (non-standard format)".data

def dupMsg (previousLine : Nat) : Str :=
  "Duplicate timestamp (also on line ".data ++ natToStr previousLine ++ ")".data

def oooMsg (previousLine : Nat) : Str :=
  "Timestamp is earlier than previous line (".data ++ natToStr previousLine ++ ")".data

def gapMsg (gap : Int) : Str :=
  "Large gap (".data ++ natToStr ((gap.toNat + 500) / 1000) ++
  "s) from previous line".data

def overlapMsg (gap : Int) : Str :=
  "Very close to previous timestamp (".data ++ natToStr gap.toNat ++ "ms gap)".data

/-- Constructor shorthand for an issue record. -/
def mkIssue (line : Nat) (type : IssueType) (severity : Severity)
    (message raw : Str) : LRCValidationIssue :=
  ⟨line, type, severity, message, raw⟩

/-- Per-line step of validateLRC, in source order: skip blank and metadata
lines; report ELRC word timestamps; extract all bracket timestamps and stop
after reporting when there are none or more than one; parse the single
timestamp; report a negative value; report a duplicate millisecond value or
record a first-seen one; record the timed line; report a whole-line shape
mismatch. -/
def processLine (st : LineState) (index : Nat) (rawLine : Str) : LineState :=
  let line := jsTrim rawLine
  if line.isEmpty then st
  else if isMetadata line then st
  else
    let elrcMatches := scanElrc line
    let st1 := if 0 < elrcMatches.length then
        { st with
          elrcCount := st.elrcCount + 1
          issues := st.issues ++
            [mkIssue (index + 1) .elrcWordTiming .error (elrcMsg elrcMatches.length) line] }
      else st
    let timestamps := scanTs line
    if timestamps.length = 0 then st1
    else if 1 < timestamps.length then
      { st1 with
        multiTimestampCount := st1.multiTimestampCount + 1
        issues := st1.issues ++
          [mkIssue (index + 1) .multiTimestamp .warning (multiMsg timestamps.length) line] }
    else
      let timestampStr := timestamps.headD []
      match parseTimestampToMs timestampStr with
      | none =>
        { st1 with issues := st1.issues ++
            [mkIssue (index + 1) .invalidTimestamp .error "Invalid timestamp format".data line] }
      | some timestampMs =>
        if timestampMs < 0 then
          { st1 with issues := st1.issues ++
              [mkIssue (index + 1) .negativeTimestamp .error
                "Timestamp cannot be negative".data line] }
        else
          let st2 := match seenLookup st1.seenTimestamps timestampMs with
            | some previousLine =>
              { st1 with issues := st1.issues ++
                  [mkIssue (index + 1) .duplicateTimestamp .warning (dupMsg previousLine) line] }
            | none =>
              { st1 with seenTimestamps := st1.seenTimestamps ++ [(timestampMs, index + 1)] }
          let st3 := { st2 with timedLines := st2.timedLines ++ [⟨timestampMs, index + 1, line⟩] }
          if singleTimestampShape line then st3
          else { st3 with issues := st3.issues ++
              [mkIssue (index + 1) .invalidFormat .error "Invalid timestamp format".data line] }

/-- The per-line pass over all lines, carrying the zero-based index. -/
def scanLines : LineState → Nat → List Str → LineState
  | st, _, [] => st
  | st, index, l :: ls => scanLines (processLine st index l) (index + 1) ls

/-- The state after the per-line pass of validateLRC. -/
def validateScan (content : Str) : LineState :=
  scanLines ⟨[], 0, 0, [], []⟩ 0 (splitNl content)

/-- The out-of-order pass over adjacent pairs of timed lines. -/
def outOfOrderIssues : List TimedLine → List LRCValidationIssue
  | a :: b :: rest =>
    (if b.timestamp < a.timestamp then
      [mkIssue b.line .outOfOrder .warning (oooMsg a.line) b.raw]
     else []) ++ outOfOrderIssues (b :: rest)
  | _ => []

/-- The excessive-gap pass over adjacent pairs of timed lines. -/
def excessiveGapIssues : List TimedLine → List LRCValidationIssue
  | a :: b :: rest =>
    (if 30000 < b.timestamp - a.timestamp then
      [mkIssue b.line .excessiveGap .warning (gapMsg (b.timestamp - a.timestamp)) b.raw]
     else []) ++ excessiveGapIssues (b :: rest)
  | _ => []

/-- The near-overlap pass over adjacent pairs of timed lines: equal values
are skipped, a positive gap under a hundred milliseconds is reported. -/
def overlapIssues : List TimedLine → List LRCValidationIssue
  | a :: b :: rest =>
    (if b.timestamp = a.timestamp then []
     else if 0 < b.timestamp - a.timestamp ∧ b.timestamp - a.timestamp < 100 then
      [mkIssue b.line .timestampOverlap .warning (overlapMsg (b.timestamp - a.timestamp)) b.raw]
     else []) ++ overlapIssues (b :: rest)
  | _ => []

/-- The final check of validateLRC: nonblank content with no successfully
timed line yields the single no-timestamps error, whose raw field is the
first hundred characters of the content with an ellipsis appended exactly
when the content is longer than a hundred characters. -/
def noTimestampsIssues (content : Str) (timed : List TimedLine) : List LRCValidationIssue :=
  if timed.isEmpty && !(jsTrim content).isEmpty then
    [mkIssue 1 .noTimestamps .error "No valid LRC timestamps found in the content".data
      (content.take 100 ++ (if 100 < content.length then "...".data else []))]
  else []

structure LRCValidationResult where
  isValid : Bool
  issues : List LRCValidationIssue
  hasMultiTimestamps : Bool
  hasELRC : Bool
  hasErrors : Bool
  hasWarnings : Bool
  totalLines : Nat
  affectedLines : Nat
  issuesByType : IssueType → Nat

/-- Embedding of validateLRC. -/
def validateLRC (content : Str) : LRCValidationResult :=
  let st := validateScan content
  let issues := st.issues ++ outOfOrderIssues st.timedLines ++
    excessiveGapIssues st.timedLines ++ overlapIssues st.timedLines ++
    noTimestampsIssues content st.timedLines
  { isValid := issues.isEmpty
    issues := issues
    hasMultiTimestamps := decide (0 < st.multiTimestampCount)
    hasELRC := decide (0 < st.elrcCount)
    hasErrors := issues.any (fun i => i.severity == .error)
    hasWarnings := issues.any (fun i => i.severity == .warning)
    totalLines := ((splitNl content).filter (fun l => !(jsTrim l).isEmpty)).length
    affectedLines := issues.length
    issuesByType := fun ty => (issues.filter (fun i => i.type == ty)).length }

/-- Embedding of validateSyncedLyrics, a direct alias of validateLRC. -/
def validateSyncedLyrics (syncedLyrics : Str) : LRCValidationResult :=
  validateLRC syncedLyrics

/-- Embedding of validateBeforeSubmit of the page: the gate passes when the
synced-lyrics field is blank, and otherwise blocks exactly when the
validation result is not valid and has the multi-timestamp flag set. -/
def validateBeforeSubmit (syncedLyrics : Str) : Bool :=
  if (jsTrim syncedLyrics).isEmpty then true
  else
    let validationResult := validateSyncedLyrics syncedLyrics
    if !validationResult.isValid && validationResult.hasMultiTimestamps then false
    else true

/-- Spec-side contribution of one already-trimmed line to the plain lyrics,
following the amended claim: only a line beginning with a timestamp token
contributes, metadata and rests spanning a line terminator are dropped, the
trimmed rest is kept when nonempty. -/
def plainLineSpec (t : Str) : Option Str :=
  match matchTsAt t with
  | some (_, rest) =>
    if isMetadata t = true ∨ rest.any isLineTerm = true then none
    else if (jsTrim rest).isEmpty then none else some (jsTrim rest)
  | none => none

/-- The text after the last timestamp match of a line: the suffix of the
line starting where the last match ends.  This is the spec-side phrasing of
the lyric text that the expansion attaches to every emitted line. -/
def textAfterLastTok (line : Str) : Str :=
  match (scanTsPos line).getLast? with
  | some (p, t) => line.drop (p + (tokText t).length)
  | none => line

/-- The issue types that the per-line pass can emit. -/
def perLineTypes : List IssueType :=
  [.elrcWordTiming, .multiTimestamp, .invalidTimestamp, .negativeTimestamp,
   .duplicateTimestamp, .invalidFormat]

/-! ### Theorems -/

theorem matchTsAt_some {s : Str} {t : TsTok} {r : Str} (h : matchTsAt s = some (t, r)) :
    s = tokText t ++ r ∧ tokWF t := by
  unfold matchTsAt at h
  split at h
  · next m1 m2 s1 s2 d1 d2 rest =>
    by_cases hdig : (m1.isDigit && m2.isDigit && s1.isDigit && s2.isDigit &&
        d1.isDigit && d2.isDigit) = true
    swap
    · rw [if_neg hdig] at h
      simp at h
    · rw [if_pos hdig] at h
      simp only [Bool.and_eq_true, and_assoc] at hdig
      obtain ⟨h1, h2, h3, h4, h5, h6⟩ := hdig
      split at h
      · next d3 r2 =>
        split at h
        · next hd3 =>
          injection h with h'
          injection h' with ht hr
          subst ht; subst hr
          exact ⟨by simp [tokText], by simp_all [tokWF]⟩
        · next hd3 =>
          split at h
          · next he3 =>
            injection h with h'
            injection h' with ht hr
            subst ht; subst hr; subst he3
            exact ⟨by simp [tokText], by simp_all [tokWF]⟩
          · exact absurd h (by simp)
      · next r2 =>
        injection h with h'
        injection h' with ht hr
        subst ht; subst hr
        exact ⟨by simp [tokText], by simp_all [tokWF]⟩
      · exact absurd h (by simp)
  · exact absurd h (by simp)

theorem tokText_length_pos (t : TsTok) : 0 < (tokText t).length := by
  simp [tokText]

theorem matchTsAt_length {s : Str} {t : TsTok} {r : Str} (h : matchTsAt s = some (t, r)) :
    s.length = (tokText t).length + r.length ∧ 0 < (tokText t).length := by
  obtain ⟨hs, -⟩ := matchTsAt_some h
  subst hs
  exact ⟨by simp, tokText_length_pos t⟩

/-- Completeness of the matcher: a well-formed token text followed by any
tail is matched, producing exactly that token and that tail. -/
theorem matchTsAt_append {t : TsTok} (hw : tokWF t) (tail : Str) :
    matchTsAt (tokText t ++ tail) = some (t, tail) := by
  obtain ⟨tm, ts, tf⟩ := t
  obtain ⟨hm, hs, hf, hd⟩ := hw
  simp only at hm hs hf hd
  obtain ⟨m1, m2, hmm⟩ := List.length_eq_two.mp hm
  obtain ⟨s1, s2, hss⟩ := List.length_eq_two.mp hs
  subst hmm; subst hss
  have hdm1 : m1.isDigit = true := hd m1 (by simp)
  have hdm2 : m2.isDigit = true := hd m2 (by simp)
  have hds1 : s1.isDigit = true := hd s1 (by simp)
  have hds2 : s2.isDigit = true := hd s2 (by simp)
  rcases hf with hf2 | hf3
  · obtain ⟨d1, d2, hff⟩ := List.length_eq_two.mp hf2
    subst hff
    have hdd1 : d1.isDigit = true := hd d1 (by simp)
    have hdd2 : d2.isDigit = true := hd d2 (by simp)
    rcases tail with - | ⟨x, xs⟩
    · simp [tokText, matchTsAt, hdm1, hdm2, hds1, hds2, hdd1, hdd2]
    · by_cases hx : x = ']'
      · subst hx
        simp [tokText, matchTsAt, hdm1, hdm2, hds1, hds2, hdd1, hdd2,
          show (']' : Char).isDigit = false by decide]
      · simp only [tokText, List.cons_append, List.append_assoc, List.nil_append,
          List.singleton_append]
        simp only [matchTsAt, hdm1, hdm2, hds1, hds2, hdd1, hdd2, Bool.and_self, if_true]
        split
        · next d3 r2 heq =>
          exfalso
          injection heq with ha hb
          injection hb with hb1 hb2
          exact hx hb1
        · next r2 heq =>
          injection heq with ha hb
          subst hb
          rfl
        · next hno1 hno2 =>
          exact absurd rfl (hno2 (x :: xs))
  · obtain ⟨d1, d2, d3, hff⟩ := List.length_eq_three.mp hf3
    subst hff
    have hdd1 : d1.isDigit = true := hd d1 (by simp)
    have hdd2 : d2.isDigit = true := hd d2 (by simp)
    have hdd3 : d3.isDigit = true := hd d3 (by simp)
    simp [tokText, matchTsAt, hdm1, hdm2, hds1, hds2, hdd1, hdd2, hdd3]

theorem scanGoF_lb (fuel : Nat) : ∀ (i : Nat) (s : Str), ∀ pt ∈ scanGoF fuel i s, i ≤ pt.1 := by
  induction fuel with
  | zero => intro i s pt hpt; simp [scanGoF] at hpt
  | succ fuel ih =>
    intro i s pt hpt
    simp only [scanGoF] at hpt
    rcases hm : matchTsAt s with - | ⟨t, r⟩
    · rw [hm] at hpt
      rcases s with - | ⟨c, rest⟩
      · simp at hpt
      · simp only at hpt
        have := ih (i + 1) rest pt hpt
        omega
    · rw [hm] at hpt
      simp only [List.mem_cons] at hpt
      rcases hpt with h | h
      · subst h; simp
      · have := ih (i + (tokText t).length) r pt h
        omega

theorem scanGoF_sound (fuel : Nat) :
    ∀ (i : Nat) (s line : Str), line.drop i = s →
      ∀ pt ∈ scanGoF fuel i s, tokWF pt.2 ∧ ∃ tail, line.drop pt.1 = tokText pt.2 ++ tail := by
  induction fuel with
  | zero => intro i s line hline pt hpt; simp [scanGoF] at hpt
  | succ fuel ih =>
    intro i s line hline pt hpt
    simp only [scanGoF] at hpt
    rcases hm : matchTsAt s with - | ⟨t, r⟩
    · rw [hm] at hpt
      rcases s with - | ⟨c, rest⟩
      · simp at hpt
      · simp only at hpt
        have hline2 : line.drop (i + 1) = rest := by
          have h1 : line.drop (i + 1) = (line.drop i).drop 1 := by
            rw [List.drop_drop]
          rw [h1, hline]
          rfl
        exact ih (i + 1) rest line hline2 pt hpt
    · rw [hm] at hpt
      obtain ⟨hsplit, hwf⟩ := matchTsAt_some hm
      simp only [List.mem_cons] at hpt
      rcases hpt with h | h
      · subst h
        exact ⟨hwf, r, by rw [hline, hsplit]⟩
      · have hline2 : line.drop (i + (tokText t).length) = r := by
          have h1 : line.drop (i + (tokText t).length) =
              (line.drop i).drop (tokText t).length := by
            rw [List.drop_drop, Nat.add_comm]
          rw [h1, hline, hsplit, List.drop_left]
        exact ih (i + (tokText t).length) r line hline2 pt h

theorem scanGoF_regions (fuel : Nat) :
    ∀ (i : Nat) (s : Str), regionsOrdered (scanGoF fuel i s) := by
  induction fuel with
  | zero => intro i s; simp [scanGoF, regionsOrdered]
  | succ fuel ih =>
    intro i s
    simp only [scanGoF]
    rcases hm : matchTsAt s with - | ⟨t, r⟩
    · rcases s with - | ⟨c, rest⟩
      · simp [regionsOrdered]
      · simp only
        exact ih (i + 1) rest
    · simp only
      rcases hrec : scanGoF fuel (i + (tokText t).length) r with - | ⟨b, rest2⟩
      · simp [regionsOrdered]
      · refine ⟨?_, ?_⟩
        · have : i + (tokText t).length ≤ b.1 := by
            have := scanGoF_lb fuel (i + (tokText t).length) r b (by rw [hrec]; simp)
            exact this
          exact this
        · have := ih (i + (tokText t).length) r
          rw [hrec] at this
          exact this

theorem scanGoF_cover (fuel : Nat) :
    ∀ (i : Nat) (s line : Str), s.length ≤ fuel → line.drop i = s →
      ∀ q, i ≤ q → matchTsAt (line.drop q) ≠ none →
        ∃ pt ∈ scanGoF fuel i s, pt.1 ≤ q ∧ q < pt.1 + (tokText pt.2).length := by
  induction fuel with
  | zero =>
    intro i s line hfuel hline q hq hmq
    have hs : s = [] := List.eq_nil_of_length_eq_zero (Nat.le_zero.mp hfuel)
    subst hs
    exfalso
    apply hmq
    have : line.drop q = [] := by
      have h1 : line.drop q = (line.drop i).drop (q - i) := by
        rw [List.drop_drop]
        congr 1
        omega
      rw [h1, hline]
      simp
    rw [this]
    rfl
  | succ fuel ih =>
    intro i s line hfuel hline q hq hmq
    simp only [scanGoF]
    rcases hm : matchTsAt s with - | ⟨t, r⟩
    · rcases s with - | ⟨c, rest⟩
      · exfalso
        apply hmq
        have : line.drop q = [] := by
          have h1 : line.drop q = (line.drop i).drop (q - i) := by
            rw [List.drop_drop]
            congr 1
            omega
          rw [h1, hline]
          simp
        rw [this]
        rfl
      · simp only
        have hqi : i < q := by
          rcases Nat.lt_or_ge i q with h | h
          · exact h
          · exfalso
            have : q = i := by omega
            subst this
            rw [hline] at hmq
            exact hmq hm
        have hline2 : line.drop (i + 1) = rest := by
          have h1 : line.drop (i + 1) = (line.drop i).drop 1 := by
            rw [List.drop_drop]
          rw [h1, hline]
          rfl
        exact ih (i + 1) rest line (by simp at hfuel ⊢; omega) hline2 q (by omega) hmq
    · simp only
      obtain ⟨hsplit, -⟩ := matchTsAt_some hm
      rcases Nat.lt_or_ge q (i + (tokText t).length) with hlt | hge
      · exact ⟨(i, t), by simp, hq, hlt⟩
      · have hline2 : line.drop (i + (tokText t).length) = r := by
          have h1 : line.drop (i + (tokText t).length) =
              (line.drop i).drop (tokText t).length := by
            rw [List.drop_drop, Nat.add_comm]
          rw [h1, hline, hsplit, List.drop_left]
        have hrlen : r.length ≤ fuel := by
          have h2 := matchTsAt_length hm
          omega
        obtain ⟨pt, hmem, h1, h2⟩ :=
          ih (i + (tokText t).length) r line hrlen hline2 q hge hmq
        exact ⟨pt, by simp [hmem], h1, h2⟩

theorem isPre_iff (pat : Str) : ∀ s : Str, isPre pat s = true ↔ ∃ tail, s = pat ++ tail := by
  induction pat with
  | nil => intro s; simp [isPre]
  | cons c cs ih =>
    intro s
    rcases s with - | ⟨d, ds⟩
    · simp [isPre]
    · simp only [isPre, Bool.and_eq_true, beq_iff_eq, ih, List.cons_append, List.cons.injEq]
      constructor
      · rintro ⟨h1, tail, h2⟩
        exact ⟨tail, h1.symm, h2⟩
      · rintro ⟨tail, h1, h2⟩
        exact ⟨h1.symm, tail, h2⟩

theorem lastIdxAux_eq (pat s : Str) (p : Nat)
    (hp : isPre pat (s.drop p) = true)
    (hno : ∀ q, p < q → isPre pat (s.drop q) = false) :
    ∀ n, p ≤ n → lastIdxAux pat s n = some p := by
  intro n
  induction n with
  | zero =>
    intro hpn
    have : p = 0 := Nat.le_zero.mp hpn
    subst this
    simp only [lastIdxAux]
    rw [if_pos (by simpa using hp)]
  | succ n ih =>
    intro hpn
    rcases Nat.lt_or_ge p (n + 1) with hlt | hge
    · simp only [lastIdxAux]
      rw [if_neg (by rw [hno (n + 1) hlt]; simp)]
      exact ih (by omega)
    · have : p = n + 1 := by omega
      subst this
      simp only [lastIdxAux]
      rw [if_pos (by simpa using hp)]

theorem regionsOrdered_last (last : Nat × TsTok) :
    ∀ xs : List (Nat × TsTok), regionsOrdered (xs ++ [last]) →
      ∀ x ∈ xs, x.1 + (tokText x.2).length ≤ last.1 := by
  intro xs
  induction xs with
  | nil => intro h x hx; simp at hx
  | cons a rest ih =>
    intro h x hx
    rcases rest with - | ⟨b, rest2⟩
    · simp only [List.nil_append, List.cons_append, regionsOrdered] at h
      simp only [List.mem_singleton] at hx
      subst hx
      exact h.1
    · simp only [List.cons_append, regionsOrdered] at h
      simp only [List.mem_cons] at hx
      rcases hx with hx | hx
      · subst hx
        have hb := ih h.2 b (by simp)
        have := h.1
        omega
      · exact ih h.2 x (by simp [hx])

theorem tokText_body (t : TsTok) (hw : tokWF t) :
    ∃ body, tokText t = '[' :: body ∧ ∀ c ∈ body, c ≠ '[' := by
  obtain ⟨-, -, -, hd⟩ := hw
  refine ⟨t.minutes ++ ':' :: (t.seconds ++ '.' :: (t.frac ++ [']'])), rfl, ?_⟩
  intro c hc
  have hdash : ∀ x ∈ t.minutes ++ t.seconds ++ t.frac, x ≠ '[' := by
    intro x hx
    have hdig := hd x hx
    intro hxe
    subst hxe
    simp [Char.isDigit] at hdig
  rcases List.mem_append.mp hc with h1 | h1
  · exact hdash c (List.mem_append.mpr (Or.inl (List.mem_append.mpr (Or.inl h1))))
  · rcases List.mem_cons.mp h1 with h2 | h2
    · subst h2; decide
    · rcases List.mem_append.mp h2 with h3 | h3
      · exact hdash c (List.mem_append.mpr (Or.inl (List.mem_append.mpr (Or.inr h3))))
      · rcases List.mem_cons.mp h3 with h4 | h4
        · subst h4; decide
        · rcases List.mem_append.mp h4 with h5 | h5
          · exact hdash c (List.mem_append.mpr (Or.inr h5))
          · rcases List.mem_cons.mp h5 with h6 | h6
            · subst h6; decide
            · simp at h6

theorem head?_drop_eq {α : Type} (l : List α) : ∀ n, (l.drop n).head? = l.get? n := by
  induction l with
  | nil => intro n; simp
  | cons a l ih =>
    intro n
    rcases n with - | n
    · rfl
    · simpa using ih n

theorem scan_last_no_later (line : Str) (ps : List (Nat × TsTok)) (p : Nat) (t : TsTok)
    (h : scanTsPos line = ps ++ [(p, t)]) :
    tokWF t ∧ (∃ tail, line.drop p = tokText t ++ tail) ∧
      ∀ q, p < q → ¬ ∃ tail, line.drop q = tokText t ++ tail := by
  have hmem : (p, t) ∈ scanTsPos line := by rw [h]; simp
  obtain ⟨hwf, tail, htail⟩ :=
    scanGoF_sound line.length 0 line line (List.drop_zero line) (p, t) hmem
  refine ⟨hwf, ⟨tail, htail⟩, ?_⟩
  rintro q hq ⟨tail2, htail2⟩
  have hocc : matchTsAt (line.drop q) = some (t, tail2) := by
    rw [htail2]
    exact matchTsAt_append hwf tail2
  obtain ⟨pt, hptmem, hle, hlt⟩ :=
    scanGoF_cover line.length 0 line line (Nat.le_refl _) (List.drop_zero line) q
      (Nat.zero_le q) (by rw [hocc]; simp)
  have hptmem2 : pt ∈ ps ++ [(p, t)] := by rw [← h]; exact hptmem
  rcases List.mem_append.mp hptmem2 with hin | hin
  · have hreg : regionsOrdered (scanTsPos line) := scanGoF_regions line.length 0 line
    rw [h] at hreg
    have := regionsOrdered_last (p, t) ps hreg pt hin
    omega
  · simp only [List.mem_singleton] at hin
    subst hin
    simp only at hle hlt
    obtain ⟨body, hbody, hnb⟩ := tokText_body t hwf
    have hL : (tokText t).length = body.length + 1 := by rw [hbody]; rfl
    have hk : q - p - 1 < body.length := by omega
    have e1 : line.drop q = (body ++ tail).drop (q - p - 1) := by
      have h1 : line.drop q = (line.drop p).drop (q - p) := by
        rw [List.drop_drop]
        congr 1
        omega
      rw [h1, htail, hbody]
      have h2 : q - p = (q - p - 1) + 1 := by omega
      rw [h2]
      rfl
    have e2 : ((body ++ tail).drop (q - p - 1)).head? = some '[' := by
      rw [← e1, htail2, hbody]
      rfl
    rw [head?_drop_eq] at e2
    rw [List.get?_append hk] at e2
    exact hnb '[' (List.get?_mem e2) rfl

theorem lastIndexOf_last_tok (line : Str) (ps : List (Nat × TsTok)) (p : Nat) (t : TsTok)
    (h : scanTsPos line = ps ++ [(p, t)]) :
    lastIndexOfInt line (tokText t) = (p : Int) := by
  obtain ⟨hwf, ⟨tail, htail⟩, hno⟩ := scan_last_no_later line ps p t h
  have hp : isPre (tokText t) (line.drop p) = true :=
    (isPre_iff (tokText t) (line.drop p)).mpr ⟨tail, htail⟩
  have hnoq : ∀ q, p < q → isPre (tokText t) (line.drop q) = false := by
    intro q hq
    rcases hpre : isPre (tokText t) (line.drop q) with - | -
    · rfl
    · exact absurd ((isPre_iff (tokText t) (line.drop q)).mp hpre) (hno q hq)
  have hpl : p ≤ line.length := by
    by_contra hcon
    have hnil : line.drop p = [] := by
      rw [List.drop_eq_nil_iff_le]
      omega
    rw [hnil] at htail
    have hlen : (0 : Nat) = (tokText t ++ tail).length := by rw [← htail]; rfl
    simp [tokText] at hlen
  unfold lastIndexOfInt
  rw [lastIdxAux_eq (tokText t) line p hp hnoq line.length hpl]

theorem splitNl_ne_nil (s : Str) : splitNl s ≠ [] := by
  induction s with
  | nil => simp [splitNl]
  | cons c rest ih =>
    simp only [splitNl]
    split
    · simp
    · split
      · simp
      · simp

theorem joinNl_splitNl (s : Str) : joinNl (splitNl s) = s := by
  induction s with
  | nil => rfl
  | cons c rest ih =>
    simp only [splitNl]
    split
    · next hc =>
      subst hc
      rcases hparts : splitNl rest with - | ⟨p, ps⟩
      · exact absurd hparts (splitNl_ne_nil rest)
      · rw [hparts] at ih
        simp only [joinNl]
        rw [ih]
        rfl
    · next hc =>
      rcases hparts : splitNl rest with - | ⟨p, ps⟩
      · exact absurd hparts (splitNl_ne_nil rest)
      · rw [hparts] at ih
        rcases ps with - | ⟨p2, ps2⟩
        · simp only [joinNl] at ih ⊢
          rw [ih]
        · simp only [joinNl] at ih ⊢
          rw [List.cons_append, ih]

theorem mem_splitNl_no_newline (s : Str) : ∀ l ∈ splitNl s, '\n' ∉ l := by
  induction s with
  | nil =>
    intro l hl
    simp [splitNl] at hl
    simp [hl]
  | cons c rest ih =>
    intro l hl
    simp only [splitNl] at hl
    split at hl
    · simp only [List.mem_cons] at hl
      rcases hl with h | h
      · simp [h]
      · exact ih l h
    · next hc =>
      rcases hparts : splitNl rest with - | ⟨p, ps⟩
      · exact absurd hparts (splitNl_ne_nil rest)
      · rw [hparts] at hl
        simp only [List.mem_cons] at hl
        rcases hl with h | h
        · subst h
          intro hmem
          simp only [List.mem_cons] at hmem
          rcases hmem with h | h
          · exact hc h.symm
          · exact ih p (by rw [hparts]; simp) h
        · exact ih l (by rw [hparts]; simp [h])

theorem splitNl_joinNl : ∀ ls : List Str, ls ≠ [] → (∀ l ∈ ls, '\n' ∉ l) →
    splitNl (joinNl ls) = ls := by
  have single : ∀ l : Str, '\n' ∉ l → splitNl l = [l] := by
    intro l
    induction l with
    | nil => intro h; rfl
    | cons c rest ih =>
      intro h
      simp only [List.mem_cons] at h
      push_neg at h
      simp only [splitNl]
      rw [if_neg (by intro hc; exact h.1 hc.symm)]
      rw [ih h.2]
  intro ls
  induction ls with
  | nil => intro h; exact absurd rfl h
  | cons a ls ih =>
    intro hne hmem
    rcases ls with - | ⟨b, ls2⟩
    · exact single a (hmem a (by simp))
    · simp only [joinNl]
      have hstep : ∀ (l : Str) (tail : Str), '\n' ∉ l →
          splitNl (l ++ '\n' :: tail) = l :: splitNl tail := by
        intro l
        induction l with
        | nil => intro tail h; simp [splitNl]
        | cons c rest ihl =>
          intro tail h
          simp only [List.mem_cons] at h
          push_neg at h
          simp only [List.cons_append, splitNl]
          rw [if_neg (by intro hc; exact h.1 hc.symm)]
          simp only [List.append_eq]
          rw [ihl tail h.2]
      rw [hstep a (joinNl (b :: ls2)) (hmem a (by simp))]
      rw [ih (by simp) (fun l hl => hmem l (by simp [hl]))]

theorem mem_jsTrim {c : Char} {l : Str} (h : c ∈ jsTrim l) : c ∈ l := by
  unfold jsTrim at h
  rw [List.mem_reverse] at h
  have h2 := List.dropWhile_sublist (l := (l.dropWhile isJsWs).reverse) isJsWs
  have h3 := h2.subset h
  rw [List.mem_reverse] at h3
  exact (List.dropWhile_sublist isJsWs).subset h3

theorem map_eq_self_of_mem {α : Type} {f : α → α} :
    ∀ {l : List α}, (∀ x ∈ l, f x = x) → l.map f = l := by
  intro l
  induction l with
  | nil => intro h; rfl
  | cons a l ih =>
    intro h
    simp only [List.map_cons]
    rw [h a (by simp), ih (fun x hx => h x (by simp [hx]))]

theorem join_map_singleton {α : Type} (f : α → Str) :
    ∀ l : List α, (l.map (fun x => [f x])).join = l.map f := by
  intro l
  induction l with
  | nil => rfl
  | cons a l ih => simp only [List.map_cons, List.join_cons, ih, List.singleton_append]

/-- C1: the claim that the Sorter orders by the same millisecond value that
the Validator's parseTimestampToMs computes fails on three-digit fractional
parts.  At the token [00:00.525] the sorter key is parseInt("525")*10 = 5250
while parseTimestampToMs rounds to 530; consequently sortLRCLines places
[00:01.00] (key 1000) before [00:00.525] (true time 525 ms), which is not
chronological and contradicts the sorter's own documentation. -/
theorem C1_sorter_key_mismatch :
    (matchTsAt "[00:00.525]".data).map (fun p => sortTimestampKey p.1) = some 5250 ∧
    parseTimestampToMs "[00:00.525]".data = some 530 ∧
    sortLRCLines "[00:00.525]A\n[00:01.00]B".data = "[00:01.00]B\n[00:00.525]A".data :=
  ⟨by decide, by decide, by decide⟩

/-- C2 counterexample: the claim says a line that had no timestamp token at
all still contributes its nonblank remaining text to the plain lyrics; on
the input consisting of the single line hello the extractor returns the
empty string, so such lines are in fact dropped. -/
theorem C2_counterexample :
    extractPlainLyrics "hello".data = [] ∧ "hello".data ≠ ([] : Str) :=
  ⟨by decide, by decide⟩

/-- C3: rounding a three-digit fractional part of 995 or more yields 100,
which padStart leaves as the three digits 100, so the re-emitted token is
[00:00.100], not a two-digit form; re-parsing that token yields 100 ms
although the original token meant 995 ms (parsed as 1000 ms after
rounding).  This contradicts the function's own documentation that the
result always has two-digit milliseconds. -/
theorem C3_normalizeTimestamp_995 :
    normalizeTimestamp "[00:00.995]".data = "[00:00.100]".data ∧
    (match matchTsAt (normalizeTimestamp "[00:00.995]".data) with
     | some (t, _) => t.frac.length
     | none => 0) = 3 ∧
    parseTimestampToMs "[00:00.995]".data = some 1000 ∧
    parseTimestampToMs "[00:00.100]".data = some 100 :=
  ⟨by decide, by decide, by decide, by decide⟩

theorem of_map_eq_self {α : Type} {f : α → α} :
    ∀ {l : List α}, l.map f = l → ∀ x ∈ l, f x = x := by
  intro l
  induction l with
  | nil => intro h x hx; simp at hx
  | cons a l ih =>
    intro h x hx
    simp only [List.map_cons, List.cons.injEq] at h
    simp only [List.mem_cons] at hx
    rcases hx with hx | hx
    · subst hx; exact h.1
    · exact ih h.2 x hx

theorem normLine_single (l : Str) (h : (scanTs (jsTrim l)).length ≤ 1) :
    normLine l = ([jsTrim l], 0, 0) := by
  simp only [normLine]
  by_cases h1 : ((jsTrim l).isEmpty || isMetadata (jsTrim l)) = true
  · simp [h1]
  · simp only [h1, if_false, Bool.false_eq_true]
    rw [if_pos h]

theorem normalizeLRC_single_characterization (c : Str)
    (h : ∀ l ∈ splitNl c, (scanTs (jsTrim l)).length ≤ 1) :
    (normalizeLRC c).changes = 0 ∧ (normalizeLRC c).expandedLines = 0 ∧
    (normalizeLRC c).normalized = joinNl ((splitNl c).map jsTrim) := by
  have hmap : (splitNl c).map normLine = (splitNl c).map (fun l => ([jsTrim l], 0, 0)) := by
    apply List.map_congr_left
    intro l hl
    exact normLine_single l (h l hl)
  refine ⟨?_, ?_, ?_⟩
  · simp only [normalizeLRC, hmap, List.map_map]
    apply List.sum_eq_zero
    intro x hx
    simp only [List.mem_map] at hx
    obtain ⟨l, -, hl⟩ := hx
    simp [← hl, Function.comp]
  · simp only [normalizeLRC, hmap, List.map_map]
    apply List.sum_eq_zero
    intro x hx
    simp only [List.mem_map] at hx
    obtain ⟨l, -, hl⟩ := hx
    simp [← hl, Function.comp]
  · simp only [normalizeLRC, hmap, List.map_map]
    congr 1
    have hcomp : ((fun r : List Str × Nat × Nat => r.1) ∘
        fun l : Str => ([jsTrim l], (0 : Nat), (0 : Nat))) = fun l : Str => [jsTrim l] := rfl
    rw [hcomp]
    exact join_map_singleton jsTrim (splitNl c)

/-- C10: when no line of the input carries more than one timestamp token,
normalizeLRC reports zero changes and zero expanded lines and its
normalized text is the input with every line trimmed, joined by newlines;
that text equals the input exactly when every line was already trimmed. -/
theorem C10_normalizeLRC_single (c : Str)
    (h : ∀ l ∈ splitNl c, (scanTs (jsTrim l)).length ≤ 1) :
    (normalizeLRC c).changes = 0 ∧ (normalizeLRC c).expandedLines = 0 ∧
    (normalizeLRC c).normalized = joinNl ((splitNl c).map jsTrim) ∧
    ((normalizeLRC c).normalized = c ↔ ∀ l ∈ splitNl c, jsTrim l = l) := by
  obtain ⟨h1, h2, h3⟩ := normalizeLRC_single_characterization c h
  refine ⟨h1, h2, h3, ?_⟩
  constructor
  · intro heq
    rw [h3] at heq
    have hnl : ∀ l ∈ (splitNl c).map jsTrim, '\n' ∉ l := by
      intro l hl
      simp only [List.mem_map] at hl
      obtain ⟨l0, hl0, hl0e⟩ := hl
      intro hmem
      exact mem_splitNl_no_newline c l0 hl0 (mem_jsTrim (hl0e ▸ hmem))
    have hne : (splitNl c).map jsTrim ≠ [] := by
      intro hcon
      exact splitNl_ne_nil c (List.map_eq_nil.mp hcon)
    have hsj := splitNl_joinNl ((splitNl c).map jsTrim) hne hnl
    rw [heq] at hsj
    exact of_map_eq_self hsj.symm
  · intro hall
    rw [h3, map_eq_self_of_mem hall, joinNl_splitNl]

/-- C10 witness: a single line with a leading space; the hypothesis holds,
the counters are zero, the normalized text is the trimmed line, and it
differs from the untrimmed input. -/
theorem C10_witness :
    (∀ l ∈ splitNl " [00:01.00]A".data, (scanTs (jsTrim l)).length ≤ 1) ∧
    (normalizeLRC " [00:01.00]A".data).changes = 0 ∧
    (normalizeLRC " [00:01.00]A".data).normalized = "[00:01.00]A".data ∧
    (normalizeLRC " [00:01.00]A".data).normalized ≠ " [00:01.00]A".data := by
  have h : ∀ l ∈ splitNl " [00:01.00]A".data, (scanTs (jsTrim l)).length ≤ 1 := by decide
  obtain ⟨h1, h2, h3, h4⟩ := C10_normalizeLRC_single " [00:01.00]A".data h
  refine ⟨h, h1, ?_, ?_⟩
  · rw [h3]; decide
  · intro heq
    exact absurd (h4.mp heq) (by decide)

/-- C5: on an input whose lines are all trimmed, each carrying at most one
timestamp token, and which sortLRCLines leaves unchanged, the combined
pipeline returns the input byte for byte and reports zero changes. -/
theorem C5_normalizeAndSortLRC_idempotent (c : Str)
    (h1 : ∀ l ∈ splitNl c, jsTrim l = l)
    (h2 : ∀ l ∈ splitNl c, (scanTs l).length ≤ 1)
    (h3 : sortLRCLines c = c) :
    (normalizeAndSortLRC c).normalized = c ∧ (normalizeAndSortLRC c).changes = 0 := by
  have h2t : ∀ l ∈ splitNl c, (scanTs (jsTrim l)).length ≤ 1 := by
    intro l hl
    rw [h1 l hl]
    exact h2 l hl
  obtain ⟨hch, -, hno⟩ := normalizeLRC_single_characterization c h2t
  have hnorm : (normalizeLRC c).normalized = c := by
    rw [hno, map_eq_self_of_mem h1, joinNl_splitNl]
  constructor
  · show sortLRCLines (normalizeLRC c).normalized = c
    rw [hnorm, h3]
  · exact hch

/-- C5 witness: a two-line, already trimmed, already sorted input with one
timestamp per line is returned unchanged with zero changes. -/
theorem C5_witness :
    (∀ l ∈ splitNl "[00:01.00]A\n[00:02.00]B".data, jsTrim l = l) ∧
    (∀ l ∈ splitNl "[00:01.00]A\n[00:02.00]B".data, (scanTs l).length ≤ 1) ∧
    sortLRCLines "[00:01.00]A\n[00:02.00]B".data = "[00:01.00]A\n[00:02.00]B".data ∧
    (normalizeAndSortLRC "[00:01.00]A\n[00:02.00]B".data).normalized =
      "[00:01.00]A\n[00:02.00]B".data ∧
    (normalizeAndSortLRC "[00:01.00]A\n[00:02.00]B".data).changes = 0 := by
  have h1 : ∀ l ∈ splitNl "[00:01.00]A\n[00:02.00]B".data, jsTrim l = l := by decide
  have h2 : ∀ l ∈ splitNl "[00:01.00]A\n[00:02.00]B".data, (scanTs l).length ≤ 1 := by decide
  have h3 : sortLRCLines "[00:01.00]A\n[00:02.00]B".data =
      "[00:01.00]A\n[00:02.00]B".data := by decide
  obtain ⟨ha, hb⟩ := C5_normalizeAndSortLRC_idempotent _ h1 h2 h3
  exact ⟨h1, h2, h3, ha, hb⟩

theorem plainLine_eq_spec (l : Str) : plainLine l = plainLineSpec (jsTrim l) := by
  simp only [plainLine, plainLineSpec]
  by_cases h1 : (jsTrim l).isEmpty = true
  · rw [if_pos h1]
    have he : jsTrim l = [] := by simpa using h1
    rw [he]
    rfl
  · rw [if_neg h1]
    by_cases h2 : isMetadata (jsTrim l) = true
    · rw [if_pos h2]
      rcases hm : matchTsAt (jsTrim l) with - | ⟨tok, rest⟩
      · rfl
      · simp [h2]
    · rw [if_neg h2]
      rcases hm : matchTsAt (jsTrim l) with - | ⟨tok, rest⟩
      · rfl
      · by_cases h3 : rest.any isLineTerm = true
        · simp [h2, h3]
        · simp [h2, h3]

/-- C2 amended: for every input, the plain-lyrics extraction equals the
per-line contribution map in which a line contributes exactly when its
trimmed form begins with a timestamp token, is not metadata, has no line
terminator after the token, and has a nonblank trimmed rest; contributions
are joined with newlines in document order. -/
theorem C2_extractPlainLyrics_characterization (syncedLyrics : Str) :
    extractPlainLyrics syncedLyrics =
      joinNl (((splitNl syncedLyrics).map jsTrim).filterMap plainLineSpec) := by
  unfold extractPlainLyrics
  congr 1
  rw [List.filterMap_map]
  have hfun : plainLine = (fun l => plainLineSpec (jsTrim l)) := funext plainLine_eq_spec
  rw [hfun]
  rfl

theorem getLastD_concat {α : Type} (a d : α) : ∀ l : List α, (l ++ [a]).getLastD d = a := by
  intro l
  induction l with
  | nil => rfl
  | cons b l ih =>
    rcases l with - | ⟨c, l2⟩
    · rfl
    · simpa using ih

theorem getLast?_concat_eq {α : Type} (a : α) : ∀ l : List α, (l ++ [a]).getLast? = some a := by
  intro l
  induction l with
  | nil => rfl
  | cons b l ih =>
    rcases l with - | ⟨c, l2⟩
    · rfl
    · simpa using ih

/-- C4 counterexample: a metadata line can carry two timestamp tokens, and
normalizeLRC passes it through unexpanded with zero changes, whereas the
claim as stated demands two output lines and a changes contribution of one
for every line carrying more than one token. -/
theorem C4_counterexample :
    (scanTs (jsTrim "[ti:x][00:00.00][00:01.00]".data)).length = 2 ∧
    normLine "[ti:x][00:00.00][00:01.00]".data =
      (["[ti:x][00:00.00][00:01.00]".data], 0, 0) ∧
    (normalizeLRC "[ti:x][00:00.00][00:01.00]".data).changes = 0 ∧
    (normalizeLRC "[ti:x][00:00.00][00:01.00]".data).normalized =
      "[ti:x][00:00.00][00:01.00]".data :=
  ⟨by decide, by decide, by decide, by decide⟩

/-- C4 amended: for every non-metadata input line whose trimmed form
carries two or more timestamp tokens, normLine emits exactly one line per
token, in order, each consisting of the normalized token followed by the
text after the last token, and contributes one to changes and the token
count to expandedLines; and normalizeLRC assembles exactly these per-line
outputs, joining all emitted lines and summing both counters. -/
theorem C4_expansion_law (content rawLine : Str)
    (hmeta : isMetadata (jsTrim rawLine) = false)
    (hn : 2 ≤ (scanTs (jsTrim rawLine)).length) :
    (normLine rawLine).1 = (scanTs (jsTrim rawLine)).map
        (fun ts => normalizeTimestamp ts ++ textAfterLastTok (jsTrim rawLine)) ∧
    (normLine rawLine).2.1 = 1 ∧
    (normLine rawLine).2.2 = (scanTs (jsTrim rawLine)).length ∧
    (normalizeLRC content).normalized =
      joinNl (((splitNl content).map (fun l => (normLine l).1)).join) ∧
    (normalizeLRC content).changes = ((splitNl content).map (fun l => (normLine l).2.1)).sum ∧
    (normalizeLRC content).expandedLines =
      ((splitNl content).map (fun l => (normLine l).2.2)).sum := by
  have hlen : 2 ≤ (scanTsPos (jsTrim rawLine)).length := by
    simpa [scanTs] using hn
  have hne : scanTsPos (jsTrim rawLine) ≠ [] := by
    intro hcon
    rw [hcon] at hlen
    simp at hlen
  have hdec0 := List.dropLast_append_getLast hne
  rcases hgl : (scanTsPos (jsTrim rawLine)).getLast hne with ⟨p, t⟩
  rw [hgl] at hdec0
  have hempty : (jsTrim rawLine).isEmpty = false := by
    rcases hJ : jsTrim rawLine with - | ⟨c, cs⟩
    · rw [hJ] at hne
      exact absurd rfl hne
    · rfl
  have hlast_tok : (scanTs (jsTrim rawLine)).getLastD [] = tokText t := by
    rw [scanTs, ← hdec0, List.map_append]
    exact getLastD_concat _ _ _
  have hidx : lastIndexOfInt (jsTrim rawLine) (tokText t) = (p : Int) :=
    lastIndexOf_last_tok _ _ p t hdec0.symm
  have htext : textAfterLastTok (jsTrim rawLine) =
      (jsTrim rawLine).drop (p + (tokText t).length) := by
    rw [textAfterLastTok, ← hdec0, getLast?_concat_eq]
  have htoNat : (((p : Nat) : Int) + (((tokText t).length : Nat) : Int)).toNat =
      p + (tokText t).length := by
    omega
  refine ⟨?_, ?_, ?_, ?_, ?_, ?_⟩
  · simp only [normLine]
    rw [if_neg (by simp [hempty, hmeta]), if_neg (by omega)]
    rw [hlast_tok, hidx, htext]
    simp only [htoNat]
  · simp only [normLine]
    rw [if_neg (by simp [hempty, hmeta]), if_neg (by omega)]
  · simp only [normLine]
    rw [if_neg (by simp [hempty, hmeta]), if_neg (by omega)]
  · simp only [normalizeLRC, List.map_map]
    rfl
  · simp only [normalizeLRC, List.map_map]
    rfl
  · simp only [normalizeLRC, List.map_map]
    rfl

/-- C4 witness: the chorus line of the source's own doc comment; both
hypotheses hold and the expansion law applies. -/
theorem C4_expansion_witness :
    isMetadata (jsTrim "[00:29.52][01:29.47] Chorus".data) = false ∧
    2 ≤ (scanTs (jsTrim "[00:29.52][01:29.47] Chorus".data)).length ∧
    (normLine "[00:29.52][01:29.47] Chorus".data).1 =
      (scanTs (jsTrim "[00:29.52][01:29.47] Chorus".data)).map
        (fun ts => normalizeTimestamp ts ++
          textAfterLastTok (jsTrim "[00:29.52][01:29.47] Chorus".data)) ∧
    (normLine "[00:29.52][01:29.47] Chorus".data).2.1 = 1 ∧
    (normLine "[00:29.52][01:29.47] Chorus".data).2.2 = 2 := by
  have h := C4_expansion_law "[00:29.52][01:29.47] Chorus".data
    "[00:29.52][01:29.47] Chorus".data (by decide) (by decide)
  refine ⟨by decide, by decide, h.1, h.2.1, ?_⟩
  rw [h.2.2.1]
  decide

theorem isEmpty_false_iff {α : Type} (l : List α) : l.isEmpty = false ↔ l ≠ [] := by
  cases l <;> simp

theorem processLine_spec (st : LineState) (index : Nat) (l : Str) :
    ∃ δ δt,
      (processLine st index l).issues = st.issues ++ δ ∧
      (processLine st index l).timedLines = st.timedLines ++ δt ∧
      (∀ i ∈ δ, i.line = index + 1 ∧ i.type ∈ perLineTypes) ∧
      (∀ tl ∈ δt, tl.line = index + 1) := by
  simp only [processLine]
  by_cases hA : (jsTrim l).isEmpty = true
  · rw [if_pos hA]
    exact ⟨[], [], by simp, by simp, by simp, by simp⟩
  · rw [if_neg hA]
    by_cases hB : isMetadata (jsTrim l) = true
    · rw [if_pos hB]
      exact ⟨[], [], by simp, by simp, by simp, by simp⟩
    · rw [if_neg hB]
      by_cases hE : 0 < (scanElrc (jsTrim l)).length
      · rw [if_pos hE]
        by_cases hT0 : (scanTs (jsTrim l)).length = 0
        · rw [if_pos hT0]
          refine ⟨[mkIssue (index + 1) .elrcWordTiming .error
              (elrcMsg (scanElrc (jsTrim l)).length) (jsTrim l)], [], by simp, by simp, ?_, by simp⟩
          simp [mkIssue, perLineTypes]
        · rw [if_neg hT0]
          by_cases hT1 : 1 < (scanTs (jsTrim l)).length
          · rw [if_pos hT1]
            refine ⟨[mkIssue (index + 1) .elrcWordTiming .error
                (elrcMsg (scanElrc (jsTrim l)).length) (jsTrim l),
                mkIssue (index + 1) .multiTimestamp .warning
                (multiMsg (scanTs (jsTrim l)).length) (jsTrim l)], [],
              by simp, by simp, ?_, by simp⟩
            simp [mkIssue, perLineTypes]
          · rw [if_neg hT1]
            rcases hP : parseTimestampToMs ((scanTs (jsTrim l)).headD []) with - | tms
            · refine ⟨[mkIssue (index + 1) .elrcWordTiming .error
                  (elrcMsg (scanElrc (jsTrim l)).length) (jsTrim l),
                  mkIssue (index + 1) .invalidTimestamp .error
                  "Invalid timestamp format".data (jsTrim l)], [],
                by simp, by simp, ?_, by simp⟩
              simp [mkIssue, perLineTypes]
            · dsimp only
              by_cases hNeg : tms < 0
              · rw [if_pos hNeg]
                refine ⟨[mkIssue (index + 1) .elrcWordTiming .error
                    (elrcMsg (scanElrc (jsTrim l)).length) (jsTrim l),
                    mkIssue (index + 1) .negativeTimestamp .error
                    "Timestamp cannot be negative".data (jsTrim l)], [],
                  by simp, by simp, ?_, by simp⟩
                simp [mkIssue, perLineTypes]
              · rw [if_neg hNeg]
                rcases hS : seenLookup st.seenTimestamps tms with - | prev
                · dsimp only
                  by_cases hF : singleTimestampShape (jsTrim l) = true
                  · rw [if_pos hF]
                    refine ⟨[mkIssue (index + 1) .elrcWordTiming .error
                        (elrcMsg (scanElrc (jsTrim l)).length) (jsTrim l)],
                      [⟨tms, index + 1, jsTrim l⟩],
                      by simp, by simp, ?_, by simp⟩
                    simp [mkIssue, perLineTypes]
                  · rw [if_neg hF]
                    refine ⟨[mkIssue (index + 1) .elrcWordTiming .error
                        (elrcMsg (scanElrc (jsTrim l)).length) (jsTrim l),
                        mkIssue (index + 1) .invalidFormat .error
                        "Invalid timestamp format".data (jsTrim l)],
                      [⟨tms, index + 1, jsTrim l⟩],
                      by simp, by simp, ?_, by simp⟩
                    simp [mkIssue, perLineTypes]
                · dsimp only
                  by_cases hF : singleTimestampShape (jsTrim l) = true
                  · rw [if_pos hF]
                    refine ⟨[mkIssue (index + 1) .elrcWordTiming .error
                        (elrcMsg (scanElrc (jsTrim l)).length) (jsTrim l),
                        mkIssue (index + 1) .duplicateTimestamp .warning
                        (dupMsg prev) (jsTrim l)],
                      [⟨tms, index + 1, jsTrim l⟩],
                      by simp, by simp, ?_, by simp⟩
                    simp [mkIssue, perLineTypes]
                  · rw [if_neg hF]
                    refine ⟨[mkIssue (index + 1) .elrcWordTiming .error
                        (elrcMsg (scanElrc (jsTrim l)).length) (jsTrim l),
                        mkIssue (index + 1) .duplicateTimestamp .warning
                        (dupMsg prev) (jsTrim l),
                        mkIssue (index + 1) .invalidFormat .error
                        "Invalid timestamp format".data (jsTrim l)],
                      [⟨tms, index + 1, jsTrim l⟩],
                      by simp, by simp, ?_, by simp⟩
                    simp [mkIssue, perLineTypes]
      · rw [if_neg hE]
        by_cases hT0 : (scanTs (jsTrim l)).length = 0
        · rw [if_pos hT0]
          exact ⟨[], [], by simp, by simp, by simp, by simp⟩
        · rw [if_neg hT0]
          by_cases hT1 : 1 < (scanTs (jsTrim l)).length
          · rw [if_pos hT1]
            refine ⟨[mkIssue (index + 1) .multiTimestamp .warning
                (multiMsg (scanTs (jsTrim l)).length) (jsTrim l)], [],
              by simp, by simp, ?_, by simp⟩
            simp [mkIssue, perLineTypes]
          · rw [if_neg hT1]
            rcases hP : parseTimestampToMs ((scanTs (jsTrim l)).headD []) with - | tms
            · refine ⟨[mkIssue (index + 1) .invalidTimestamp .error
                  "Invalid timestamp format".data (jsTrim l)], [],
                by simp, by simp, ?_, by simp⟩
              simp [mkIssue, perLineTypes]
            · dsimp only
              by_cases hNeg : tms < 0
              · rw [if_pos hNeg]
                refine ⟨[mkIssue (index + 1) .negativeTimestamp .error
                    "Timestamp cannot be negative".data (jsTrim l)], [],
                  by simp, by simp, ?_, by simp⟩
                simp [mkIssue, perLineTypes]
              · rw [if_neg hNeg]
                rcases hS : seenLookup st.seenTimestamps tms with - | prev
                · dsimp only
                  by_cases hF : singleTimestampShape (jsTrim l) = true
                  · rw [if_pos hF]
                    exact ⟨[], [⟨tms, index + 1, jsTrim l⟩],
                      by simp, by simp, by simp, by simp⟩
                  · rw [if_neg hF]
                    refine ⟨[mkIssue (index + 1) .invalidFormat .error
                        "Invalid timestamp format".data (jsTrim l)],
                      [⟨tms, index + 1, jsTrim l⟩],
                      by simp, by simp, ?_, by simp⟩
                    simp [mkIssue, perLineTypes]
                · dsimp only
                  by_cases hF : singleTimestampShape (jsTrim l) = true
                  · rw [if_pos hF]
                    refine ⟨[mkIssue (index + 1) .duplicateTimestamp .warning
                        (dupMsg prev) (jsTrim l)],
                      [⟨tms, index + 1, jsTrim l⟩],
                      by simp, by simp, ?_, by simp⟩
                    simp [mkIssue, perLineTypes]
                  · rw [if_neg hF]
                    refine ⟨[mkIssue (index + 1) .duplicateTimestamp .warning
                        (dupMsg prev) (jsTrim l),
                        mkIssue (index + 1) .invalidFormat .error
                        "Invalid timestamp format".data (jsTrim l)],
                      [⟨tms, index + 1, jsTrim l⟩],
                      by simp, by simp, ?_, by simp⟩
                    simp [mkIssue, perLineTypes]

theorem scanLines_spec : ∀ (ls : List Str) (st : LineState) (index : Nat),
    ∃ δ δt,
      (scanLines st index ls).issues = st.issues ++ δ ∧
      (scanLines st index ls).timedLines = st.timedLines ++ δt ∧
      (∀ i ∈ δ, index + 1 ≤ i.line ∧ i.line ≤ index + ls.length ∧ i.type ∈ perLineTypes) ∧
      (∀ tl ∈ δt, index + 1 ≤ tl.line ∧ tl.line ≤ index + ls.length) := by
  intro ls
  induction ls with
  | nil =>
    intro st index
    exact ⟨[], [], by simp [scanLines], by simp [scanLines], by simp, by simp⟩
  | cons l ls ih =>
    intro st index
    obtain ⟨δ1, δt1, h1, h2, h3, h4⟩ := processLine_spec st index l
    obtain ⟨δ2, δt2, g1, g2, g3, g4⟩ := ih (processLine st index l) (index + 1)
    refine ⟨δ1 ++ δ2, δt1 ++ δt2, ?_, ?_, ?_, ?_⟩
    · show (scanLines (processLine st index l) (index + 1) ls).issues = _
      rw [g1, h1, List.append_assoc]
    · show (scanLines (processLine st index l) (index + 1) ls).timedLines = _
      rw [g2, h2, List.append_assoc]
    · intro i hi
      rcases List.mem_append.mp hi with h | h
      · obtain ⟨ha, hb⟩ := h3 i h
        refine ⟨by omega, ?_, hb⟩
        simp only [List.length_cons]
        omega
      · obtain ⟨ha, hb, hc⟩ := g3 i h
        refine ⟨by omega, ?_, hc⟩
        simp only [List.length_cons]
        omega
    · intro tl htl
      rcases List.mem_append.mp htl with h | h
      · have ha := h4 tl h
        refine ⟨by omega, ?_⟩
        simp only [List.length_cons]
        omega
      · obtain ⟨ha, hb⟩ := g4 tl h
        refine ⟨by omega, ?_⟩
        simp only [List.length_cons]
        omega

theorem scanLines_append : ∀ (pre post : List Str) (st : LineState) (index : Nat),
    scanLines st index (pre ++ post) =
      scanLines (scanLines st index pre) (index + pre.length) post := by
  intro pre
  induction pre with
  | nil => intro post st index; simp [scanLines]
  | cons l pre ih =>
    intro post st index
    show scanLines (processLine st index l) (index + 1) (pre ++ post) = _
    rw [ih]
    have harith : index + 1 + pre.length = index + (l :: pre).length := by
      simp only [List.length_cons]
      omega
    rw [harith]
    rfl

theorem processLine_multi (st : LineState) (index : Nat) (l : Str)
    (hB : isMetadata (jsTrim l) = false)
    (hT : 1 < (scanTs (jsTrim l)).length) :
    processLine st index l = { st with
      elrcCount := if 0 < (scanElrc (jsTrim l)).length then st.elrcCount + 1 else st.elrcCount
      multiTimestampCount := st.multiTimestampCount + 1
      issues := st.issues ++
        (if 0 < (scanElrc (jsTrim l)).length then
          [mkIssue (index + 1) .elrcWordTiming .error
            (elrcMsg (scanElrc (jsTrim l)).length) (jsTrim l)]
         else []) ++
        [mkIssue (index + 1) .multiTimestamp .warning
          (multiMsg (scanTs (jsTrim l)).length) (jsTrim l)] } := by
  have hA : (jsTrim l).isEmpty = false := by
    rcases hJ : jsTrim l with - | ⟨c, cs⟩
    · rw [hJ] at hT
      simp [scanTs, scanTsPos, scanGoF] at hT
    · rfl
  have hT0 : ¬((scanTs (jsTrim l)).length = 0) := by omega
  simp only [processLine]
  rw [if_neg (by simp [hA]), if_neg (by simp [hB])]
  by_cases hE : 0 < (scanElrc (jsTrim l)).length
  · simp only [if_pos hE, if_neg hT0, if_pos hT]
  · simp only [if_neg hE, if_neg hT0, if_pos hT]
    simp [List.append_assoc]

theorem outOfOrderIssues_shape : ∀ tl : List TimedLine, ∀ i ∈ outOfOrderIssues tl,
    i.type = .outOfOrder ∧ ∃ b ∈ tl, i.line = b.line := by
  intro tl
  induction tl with
  | nil => intro i hi; simp [outOfOrderIssues] at hi
  | cons a rest ih =>
    intro i hi
    rcases rest with - | ⟨b, rest2⟩
    · simp [outOfOrderIssues] at hi
    · simp only [outOfOrderIssues] at hi
      rcases List.mem_append.mp hi with h | h
      · by_cases hc : b.timestamp < a.timestamp
        · rw [if_pos hc] at h
          simp only [List.mem_singleton] at h
          subst h
          exact ⟨rfl, b, by simp, rfl⟩
        · rw [if_neg hc] at h
          simp at h
      · obtain ⟨hty, c, hcmem, hl⟩ := ih i h
        exact ⟨hty, c, by simp [hcmem], hl⟩

theorem excessiveGapIssues_shape : ∀ tl : List TimedLine, ∀ i ∈ excessiveGapIssues tl,
    i.type = .excessiveGap ∧ ∃ b ∈ tl, i.line = b.line := by
  intro tl
  induction tl with
  | nil => intro i hi; simp [excessiveGapIssues] at hi
  | cons a rest ih =>
    intro i hi
    rcases rest with - | ⟨b, rest2⟩
    · simp [excessiveGapIssues] at hi
    · simp only [excessiveGapIssues] at hi
      rcases List.mem_append.mp hi with h | h
      · by_cases hc : 30000 < b.timestamp - a.timestamp
        · rw [if_pos hc] at h
          simp only [List.mem_singleton] at h
          subst h
          exact ⟨rfl, b, by simp, rfl⟩
        · rw [if_neg hc] at h
          simp at h
      · obtain ⟨hty, c, hcmem, hl⟩ := ih i h
        exact ⟨hty, c, by simp [hcmem], hl⟩

theorem overlapIssues_shape : ∀ tl : List TimedLine, ∀ i ∈ overlapIssues tl,
    i.type = .timestampOverlap ∧ ∃ b ∈ tl, i.line = b.line := by
  intro tl
  induction tl with
  | nil => intro i hi; simp [overlapIssues] at hi
  | cons a rest ih =>
    intro i hi
    rcases rest with - | ⟨b, rest2⟩
    · simp [overlapIssues] at hi
    · simp only [overlapIssues] at hi
      rcases List.mem_append.mp hi with h | h
      · by_cases hc0 : b.timestamp = a.timestamp
        · rw [if_pos hc0] at h
          simp at h
        · rw [if_neg hc0] at h
          by_cases hc : 0 < b.timestamp - a.timestamp ∧ b.timestamp - a.timestamp < 100
          · rw [if_pos hc] at h
            simp only [List.mem_singleton] at h
            subst h
            exact ⟨rfl, b, by simp, rfl⟩
          · rw [if_neg hc] at h
            simp at h
      · obtain ⟨hty, c, hcmem, hl⟩ := ih i h
        exact ⟨hty, c, by simp [hcmem], hl⟩

theorem noTimestampsIssues_shape (content : Str) (tl : List TimedLine) :
    ∀ i ∈ noTimestampsIssues content tl, i.type = .noTimestamps ∧ i.line = 1 := by
  intro i hi
  unfold noTimestampsIssues at hi
  split at hi
  · simp only [List.mem_singleton] at hi
    subst hi
    exact ⟨rfl, rfl⟩
  · simp at hi

theorem validateLRC_issues_def (content : Str) :
    (validateLRC content).issues = (validateScan content).issues ++
      outOfOrderIssues (validateScan content).timedLines ++
      excessiveGapIssues (validateScan content).timedLines ++
      overlapIssues (validateScan content).timedLines ++
      noTimestampsIssues content (validateScan content).timedLines := rfl

theorem validateLRC_isValid_def (content : Str) :
    (validateLRC content).isValid = (validateLRC content).issues.isEmpty := rfl

theorem perLineTypes_ne_noTs {ty : IssueType} (h : ty ∈ perLineTypes) :
    (ty == IssueType.noTimestamps) = false := by
  simp only [perLineTypes, List.mem_cons, List.not_mem_nil, or_false] at h
  rcases h with h | h | h | h | h | h <;> subst h <;> rfl

/-- C6: when the trimmed content is nonblank and the per-line pass produced
no timed line, validateLRC emits exactly one no-timestamps issue: it is an
error, references line 1, and its raw field is the first hundred characters
of the content with an ellipsis appended exactly when the content is longer
than a hundred characters; the result is not valid. -/
theorem C6_no_timestamps (content : Str)
    (h1 : (jsTrim content).isEmpty = false)
    (h2 : (validateScan content).timedLines = []) :
    ((validateLRC content).issues.filter (fun i => i.type == IssueType.noTimestamps)) =
      [mkIssue 1 .noTimestamps .error "No valid LRC timestamps found in the content".data
        (content.take 100 ++ (if 100 < content.length then "...".data else []))] ∧
    (validateLRC content).isValid = false := by
  have hscan : ∀ i ∈ (validateScan content).issues, i.type ∈ perLineTypes := by
    obtain ⟨δ, δt, e1, e2, e3, e4⟩ := scanLines_spec (splitNl content) ⟨[], 0, 0, [], []⟩ 0
    intro i hi
    rw [show validateScan content = scanLines ⟨[], 0, 0, [], []⟩ 0 (splitNl content) from rfl,
      e1] at hi
    simp only [List.nil_append] at hi
    exact (e3 i hi).2.2
  have hno : noTimestampsIssues content ([] : List TimedLine) =
      [mkIssue 1 .noTimestamps .error "No valid LRC timestamps found in the content".data
        (content.take 100 ++ (if 100 < content.length then "...".data else []))] := by
    simp [noTimestampsIssues, h1]
  have hcross : (validateLRC content).issues = (validateScan content).issues ++
      [mkIssue 1 .noTimestamps .error "No valid LRC timestamps found in the content".data
        (content.take 100 ++ (if 100 < content.length then "...".data else []))] := by
    rw [validateLRC_issues_def, h2, hno]
    simp [outOfOrderIssues, excessiveGapIssues, overlapIssues]
  constructor
  · rw [hcross, List.filter_append]
    rw [List.filter_eq_nil.mpr (fun i hi => by
      rw [perLineTypes_ne_noTs (hscan i hi)]
      simp)]
    simp [mkIssue]
  · rw [validateLRC_isValid_def]
    have hne : (validateLRC content).issues ≠ [] := by
      rw [hcross]
      simp
    exact (isEmpty_false_iff _).mpr hne

/-- C6 witness: the content hello is nonblank, has no timed line, and
produces exactly the single no-timestamps error with the full content as
the preview (shorter than a hundred characters, no ellipsis). -/
theorem C6_witness :
    (jsTrim "hello".data).isEmpty = false ∧
    (validateScan "hello".data).timedLines = [] ∧
    ((validateLRC "hello".data).issues.filter (fun i => i.type == IssueType.noTimestamps)) =
      [mkIssue 1 .noTimestamps .error "No valid LRC timestamps found in the content".data
        "hello".data] ∧
    (validateLRC "hello".data).isValid = false := by
  have h := C6_no_timestamps "hello".data (by decide) (by decide)
  refine ⟨by decide, by decide, ?_, h.2⟩
  rw [h.1]
  decide

/-- C7: the pre-submit gate blocks (returns false) exactly when the synced
lyrics are nonblank and the validation result both has issues and has the
multi-timestamp flag set; whenever the multi-timestamp flag is clear the
gate passes, whatever error-severity issues are present. -/
theorem C7_submission_gate (syncedLyrics : Str) :
    (validateBeforeSubmit syncedLyrics = false ↔
      (jsTrim syncedLyrics).isEmpty = false ∧
      (validateLRC syncedLyrics).issues ≠ [] ∧
      (validateLRC syncedLyrics).hasMultiTimestamps = true) ∧
    ((validateLRC syncedLyrics).hasMultiTimestamps = false →
      validateBeforeSubmit syncedLyrics = true) := by
  simp only [validateBeforeSubmit, validateSyncedLyrics]
  by_cases hb : (jsTrim syncedLyrics).isEmpty = true
  · rw [if_pos hb]
    constructor
    · constructor
      · intro h
        exact absurd h (by simp)
      · rintro ⟨hh1, -, -⟩
        rw [hb] at hh1
        exact absurd hh1 (by simp)
    · intro _
      rfl
  · rw [if_neg hb]
    have hb' : (jsTrim syncedLyrics).isEmpty = false := by
      rcases h : (jsTrim syncedLyrics).isEmpty with - | -
      · rfl
      · exact absurd h hb
    by_cases hc : (!(validateLRC syncedLyrics).isValid &&
        (validateLRC syncedLyrics).hasMultiTimestamps) = true
    · rw [if_pos hc]
      simp only [Bool.and_eq_true, Bool.not_eq_true'] at hc
      constructor
      · constructor
        · intro _
          refine ⟨hb', ?_, hc.2⟩
          have hv := hc.1
          rw [validateLRC_isValid_def] at hv
          exact (isEmpty_false_iff _).mp hv
        · intro _
          rfl
      · intro h
        rw [h] at hc
        simp at hc
    · rw [if_neg hc]
      constructor
      · constructor
        · intro h
          exact absurd h (by simp)
        · rintro ⟨-, hh2, hh3⟩
          exfalso
          apply hc
          simp only [Bool.and_eq_true, Bool.not_eq_true']
          refine ⟨?_, hh3⟩
          rw [validateLRC_isValid_def]
          rcases hi : (validateLRC syncedLyrics).issues with - | -
          · exact absurd hi hh2
          · rfl
      · intro _
        rfl

/-- C7 witness: the content abc produces an error-severity no-timestamps
issue but no multi-timestamp issue, and the gate passes. -/
theorem C7_witness :
    (validateLRC "abc".data).hasMultiTimestamps = false ∧
    (validateLRC "abc".data).hasErrors = true ∧
    validateBeforeSubmit "abc".data = true := by
  refine ⟨by decide, by decide, ?_⟩
  exact (C7_submission_gate "abc".data).2 (by decide)

theorem beq_nat_false_of_ne {a b : Nat} (h : a ≠ b) : (a == b) = false := by
  simp [h]

/-- C8: a nonblank, non-metadata line whose global scan finds more than one
bracket token yields exactly one multi-timestamp issue for that line, of
severity warning; the line is never added to the timed-line sequence; and
no duplicate, out-of-order, excessive-gap or overlap issue ever carries
that line number. -/
theorem C8_multi_isolation (content : Str) (pre post : List Str) (rawLine : Str)
    (hsplit : splitNl content = pre ++ rawLine :: post)
    (hblank : (jsTrim rawLine).isEmpty = false)
    (hmeta : isMetadata (jsTrim rawLine) = false)
    (hmulti : 1 < (scanTs (jsTrim rawLine)).length) :
    ((validateLRC content).issues.filter
        (fun i => i.line == pre.length + 1 && i.type == IssueType.multiTimestamp)) =
      [mkIssue (pre.length + 1) .multiTimestamp .warning
        (multiMsg (scanTs (jsTrim rawLine)).length) (jsTrim rawLine)] ∧
    (∀ tl ∈ (validateScan content).timedLines, tl.line ≠ pre.length + 1) ∧
    ((validateLRC content).issues.filter
        (fun i => i.line == pre.length + 1 &&
          (i.type == IssueType.duplicateTimestamp || i.type == IssueType.outOfOrder ||
           i.type == IssueType.excessiveGap || i.type == IssueType.timestampOverlap))) = [] := by
  have hsc : validateScan content =
      scanLines (processLine (scanLines ⟨[], 0, 0, [], []⟩ 0 pre) pre.length rawLine)
        (pre.length + 1) post := by
    show scanLines ⟨[], 0, 0, [], []⟩ 0 (splitNl content) = _
    rw [hsplit, scanLines_append]
    simp only [Nat.zero_add]
    rfl
  obtain ⟨δA, δtA, a1, a2, a3, a4⟩ := scanLines_spec pre ⟨[], 0, 0, [], []⟩ 0
  have hB := processLine_multi (scanLines ⟨[], 0, 0, [], []⟩ 0 pre) pre.length rawLine
    hmeta hmulti
  obtain ⟨δC, δtC, c1, c2, c3, c4⟩ := scanLines_spec post
    (processLine (scanLines ⟨[], 0, 0, [], []⟩ 0 pre) pre.length rawLine) (pre.length + 1)
  have htimed : (validateScan content).timedLines =
      (scanLines ⟨[], 0, 0, [], []⟩ 0 pre).timedLines ++ δtC := by
    rw [hsc, c2, hB]
  have htimed2 : ∀ tl ∈ (validateScan content).timedLines, tl.line ≠ pre.length + 1 := by
    intro tl htl
    rw [htimed] at htl
    rcases List.mem_append.mp htl with h | h
    · rw [a2] at h
      simp only [List.nil_append] at h
      have := a4 tl h
      omega
    · have := c4 tl h
      omega
  have hissues : (validateScan content).issues =
      δA ++
      ((if 0 < (scanElrc (jsTrim rawLine)).length then
          [mkIssue (pre.length + 1) .elrcWordTiming .error
            (elrcMsg (scanElrc (jsTrim rawLine)).length) (jsTrim rawLine)]
        else []) ++
        ([mkIssue (pre.length + 1) .multiTimestamp .warning
          (multiMsg (scanTs (jsTrim rawLine)).length) (jsTrim rawLine)] ++ δC)) := by
    rw [hsc, c1, hB]
    simp only [a1]
    simp [List.append_assoc]
  refine ⟨?_, htimed2, ?_⟩
  · have hfO : (outOfOrderIssues (validateScan content).timedLines).filter
        (fun i => i.line == pre.length + 1 && i.type == IssueType.multiTimestamp) = [] :=
      List.filter_eq_nil.mpr (fun i hi => by
        obtain ⟨hty, b, hbmem, hbl⟩ := outOfOrderIssues_shape _ i hi
        have hb2 := htimed2 b hbmem
        simp [beq_nat_false_of_ne (show i.line ≠ pre.length + 1 by omega)])
    have hfG : (excessiveGapIssues (validateScan content).timedLines).filter
        (fun i => i.line == pre.length + 1 && i.type == IssueType.multiTimestamp) = [] :=
      List.filter_eq_nil.mpr (fun i hi => by
        obtain ⟨hty, b, hbmem, hbl⟩ := excessiveGapIssues_shape _ i hi
        have hb2 := htimed2 b hbmem
        simp [beq_nat_false_of_ne (show i.line ≠ pre.length + 1 by omega)])
    have hfV : (overlapIssues (validateScan content).timedLines).filter
        (fun i => i.line == pre.length + 1 && i.type == IssueType.multiTimestamp) = [] :=
      List.filter_eq_nil.mpr (fun i hi => by
        obtain ⟨hty, b, hbmem, hbl⟩ := overlapIssues_shape _ i hi
        have hb2 := htimed2 b hbmem
        simp [beq_nat_false_of_ne (show i.line ≠ pre.length + 1 by omega)])
    have hfN : (noTimestampsIssues content (validateScan content).timedLines).filter
        (fun i => i.line == pre.length + 1 && i.type == IssueType.multiTimestamp) = [] :=
      List.filter_eq_nil.mpr (fun i hi => by
        obtain ⟨hty, -⟩ := noTimestampsIssues_shape content _ i hi
        simp [hty])
    have hfA : δA.filter
        (fun i => i.line == pre.length + 1 && i.type == IssueType.multiTimestamp) = [] :=
      List.filter_eq_nil.mpr (fun i hi => by
        obtain ⟨hl1, hl2, -⟩ := a3 i hi
        simp [beq_nat_false_of_ne (show i.line ≠ pre.length + 1 by omega)])
    have hfC : δC.filter
        (fun i => i.line == pre.length + 1 && i.type == IssueType.multiTimestamp) = [] :=
      List.filter_eq_nil.mpr (fun i hi => by
        obtain ⟨hl1, hl2, -⟩ := c3 i hi
        simp [beq_nat_false_of_ne (show i.line ≠ pre.length + 1 by omega)])
    have hfE : ((if 0 < (scanElrc (jsTrim rawLine)).length then
        [mkIssue (pre.length + 1) .elrcWordTiming .error
          (elrcMsg (scanElrc (jsTrim rawLine)).length) (jsTrim rawLine)]
      else []).filter
        (fun i => i.line == pre.length + 1 && i.type == IssueType.multiTimestamp)) = [] := by
      by_cases hE : 0 < (scanElrc (jsTrim rawLine)).length
      · rw [if_pos hE]
        simp [mkIssue]
      · rw [if_neg hE]
        rfl
    rw [validateLRC_issues_def, hissues]
    simp only [List.filter_append]
    rw [hfA, hfC, hfO, hfG, hfV, hfN, hfE]
    simp [mkIssue]
  · have hfO : (outOfOrderIssues (validateScan content).timedLines).filter
        (fun i => i.line == pre.length + 1 &&
          (i.type == IssueType.duplicateTimestamp || i.type == IssueType.outOfOrder ||
           i.type == IssueType.excessiveGap || i.type == IssueType.timestampOverlap)) = [] :=
      List.filter_eq_nil.mpr (fun i hi => by
        obtain ⟨hty, b, hbmem, hbl⟩ := outOfOrderIssues_shape _ i hi
        have hb2 := htimed2 b hbmem
        simp [beq_nat_false_of_ne (show i.line ≠ pre.length + 1 by omega)])
    have hfG : (excessiveGapIssues (validateScan content).timedLines).filter
        (fun i => i.line == pre.length + 1 &&
          (i.type == IssueType.duplicateTimestamp || i.type == IssueType.outOfOrder ||
           i.type == IssueType.excessiveGap || i.type == IssueType.timestampOverlap)) = [] :=
      List.filter_eq_nil.mpr (fun i hi => by
        obtain ⟨hty, b, hbmem, hbl⟩ := excessiveGapIssues_shape _ i hi
        have hb2 := htimed2 b hbmem
        simp [beq_nat_false_of_ne (show i.line ≠ pre.length + 1 by omega)])
    have hfV : (overlapIssues (validateScan content).timedLines).filter
        (fun i => i.line == pre.length + 1 &&
          (i.type == IssueType.duplicateTimestamp || i.type == IssueType.outOfOrder ||
           i.type == IssueType.excessiveGap || i.type == IssueType.timestampOverlap)) = [] :=
      List.filter_eq_nil.mpr (fun i hi => by
        obtain ⟨hty, b, hbmem, hbl⟩ := overlapIssues_shape _ i hi
        have hb2 := htimed2 b hbmem
        simp [beq_nat_false_of_ne (show i.line ≠ pre.length + 1 by omega)])
    have hfN : (noTimestampsIssues content (validateScan content).timedLines).filter
        (fun i => i.line == pre.length + 1 &&
          (i.type == IssueType.duplicateTimestamp || i.type == IssueType.outOfOrder ||
           i.type == IssueType.excessiveGap || i.type == IssueType.timestampOverlap)) = [] :=
      List.filter_eq_nil.mpr (fun i hi => by
        obtain ⟨hty, -⟩ := noTimestampsIssues_shape content _ i hi
        simp [hty])
    have hfA : δA.filter
        (fun i => i.line == pre.length + 1 &&
          (i.type == IssueType.duplicateTimestamp || i.type == IssueType.outOfOrder ||
           i.type == IssueType.excessiveGap || i.type == IssueType.timestampOverlap)) = [] :=
      List.filter_eq_nil.mpr (fun i hi => by
        obtain ⟨hl1, hl2, -⟩ := a3 i hi
        simp [beq_nat_false_of_ne (show i.line ≠ pre.length + 1 by omega)])
    have hfC : δC.filter
        (fun i => i.line == pre.length + 1 &&
          (i.type == IssueType.duplicateTimestamp || i.type == IssueType.outOfOrder ||
           i.type == IssueType.excessiveGap || i.type == IssueType.timestampOverlap)) = [] :=
      List.filter_eq_nil.mpr (fun i hi => by
        obtain ⟨hl1, hl2, -⟩ := c3 i hi
        simp [beq_nat_false_of_ne (show i.line ≠ pre.length + 1 by omega)])
    have hfE : ((if 0 < (scanElrc (jsTrim rawLine)).length then
        [mkIssue (pre.length + 1) .elrcWordTiming .error
          (elrcMsg (scanElrc (jsTrim rawLine)).length) (jsTrim rawLine)]
      else []).filter
        (fun i => i.line == pre.length + 1 &&
          (i.type == IssueType.duplicateTimestamp || i.type == IssueType.outOfOrder ||
           i.type == IssueType.excessiveGap || i.type == IssueType.timestampOverlap))) = [] := by
      by_cases hE : 0 < (scanElrc (jsTrim rawLine)).length
      · rw [if_pos hE]
        simp [mkIssue]
      · rw [if_neg hE]
        rfl
    rw [validateLRC_issues_def, hissues]
    simp only [List.filter_append]
    rw [hfA, hfC, hfO, hfG, hfV, hfN, hfE]
    simp [mkIssue]

/-- C8 witness: a single multi-timestamp line; the scan finds two tokens,
exactly one multi-timestamp warning is reported for line 1, no timed line
carries line 1, and no ordering, gap, duplicate or overlap issue exists for
line 1. -/
theorem C8_witness :
    splitNl "[00:00.00][00:01.00]hi".data = [] ++ "[00:00.00][00:01.00]hi".data :: [] ∧
    (jsTrim "[00:00.00][00:01.00]hi".data).isEmpty = false ∧
    isMetadata (jsTrim "[00:00.00][00:01.00]hi".data) = false ∧
    1 < (scanTs (jsTrim "[00:00.00][00:01.00]hi".data)).length ∧
    ((validateLRC "[00:00.00][00:01.00]hi".data).issues.filter
        (fun i => i.line == List.length ([] : List Str) + 1 &&
          i.type == IssueType.multiTimestamp)) =
      [mkIssue (List.length ([] : List Str) + 1) .multiTimestamp .warning
        (multiMsg (scanTs (jsTrim "[00:00.00][00:01.00]hi".data)).length)
        (jsTrim "[00:00.00][00:01.00]hi".data)] ∧
    ((validateLRC "[00:00.00][00:01.00]hi".data).issues.filter
        (fun i => i.line == List.length ([] : List Str) + 1 &&
          (i.type == IssueType.duplicateTimestamp || i.type == IssueType.outOfOrder ||
           i.type == IssueType.excessiveGap || i.type == IssueType.timestampOverlap))) = [] := by
  obtain ⟨w1, w2, w3⟩ := C8_multi_isolation "[00:00.00][00:01.00]hi".data []
    [] "[00:00.00][00:01.00]hi".data (by decide) (by decide) (by decide) (by decide)
  exact ⟨by decide, by decide, by decide, by decide, w1, w3⟩

end Lrclibup

